import Mathlib

/-!
Shallow embedding of the framed-line stream-reader experiments of this
repository: the file-backed reader (`experiments/go/httpgo/main.go`), the
single-connection TCP listener (`experiments/go/httpgo/cmd/tcplistener/main.go`)
and the multi-connection TCP listener (the unnamed Go source, `part_000`).

All three variants share the same loop shape: an 8-byte buffer is passed to
`Read`, the *whole* buffer is converted to a string (the returned byte count is
only compared against zero), the string is tested for the delimiter, split on
it, the first segment is emitted together with the pending `line`, and the
remaining segments are joined (with the empty string) back into `line`.

A read is modelled by the bytes it writes into the front of the buffer plus a
flag that tells whether a non-nil error accompanied it; the part of the buffer
beyond those bytes keeps its previous contents, exactly as a Go `Read` leaves
it.  The goroutine's observable behaviour is the list of strings sent on the
channel plus whether `close` was executed; a read-result list that runs out
before the loop returns corresponds to a source that blocks forever, in which
case no further sends happen and the channel is never closed.
-/

namespace StreamReader

/-- Bytes are modelled as natural numbers; `10` is the byte of the newline
character and `13` the byte of the carriage return. -/
abbrev Byte := Nat

/-- The outcome of one `f.Read(a)` call: `data` is the sequence of bytes the
read wrote into the front of the buffer (its length is the returned count),
and `err` tells whether the accompanying error value was non-nil. -/
structure ReadResult where
  data : List Byte
  err : Bool
  deriving DecidableEq

/-- What the goroutine of a reader variant did to its channel: the records
sent, in order, and whether `close(strChan)` was executed afterwards.  When
`closed` is `false` the consumer ranging over the channel blocks forever once
the listed records have been received. -/
structure ReaderOutput where
  lines : List (List Byte)
  closed : Bool
  deriving DecidableEq

/-- Effect of `f.Read(a)` on the buffer: the read overwrites the first
`data.length` cells and leaves the rest of the buffer untouched. -/
def updBuf (buf data : List Byte) : List Byte :=
  data ++ buf.drop data.length

/-- `strings.Contains(s, "\n")` on a byte string. -/
def containsNl (l : List Byte) : Bool :=
  l.contains 10

/-- `strings.Split(s, "\n")` on a byte string: the segments between the
newline bytes, leftmost first. -/
def splitOnNl : List Byte → List (List Byte)
  | [] => [[]]
  | b :: rest =>
    if b = 10 then [] :: splitOnNl rest
    else (b :: (splitOnNl rest).headD []) :: (splitOnNl rest).tail

/-- `strings.Contains(s, "\r\n")` on a byte string. -/
def containsCrlf : List Byte → Bool
  | [] => false
  | [_] => false
  | b1 :: b2 :: rest => (b1 == 13 && b2 == 10) || containsCrlf (b2 :: rest)

/-- `strings.Split(s, "\r\n")` on a byte string: the segments between the
non-overlapping `\r\n` occurrences, scanned left to right. -/
def splitOnCrlf : List Byte → List (List Byte)
  | [] => [[]]
  | [b] => [[b]]
  | b1 :: b2 :: rest =>
    if b1 = 13 ∧ b2 = 10 then [] :: splitOnCrlf rest
    else (b1 :: (splitOnCrlf (b2 :: rest)).headD []) :: (splitOnCrlf (b2 :: rest)).tail

/-- The read loop of `getLinesChannel` in `experiments/go/httpgo/main.go`
(newline delimiter).  A non-nil read error is only logged: control depends
solely on the byte count.  A zero count closes the channel and returns at
once, without flushing `line`.  Otherwise the whole 8-byte buffer is turned
into a string; if it contains a newline, `line ++ first segment` is sent and
`line` becomes the concatenation of the remaining segments (the code joins
them with `""`, so further delimiters in the same chunk are dropped);
otherwise the whole buffer is appended to `line`. -/
def fileLoop : List ReadResult → List Byte → List Byte → ReaderOutput
  | [], _, _ => ⟨[], false⟩
  | r :: rs, buf, line =>
    let buf2 := updBuf buf r.data
    if r.data.isEmpty then ⟨[], true⟩
    else if containsNl buf2 then
      let rest := fileLoop rs buf2 (splitOnNl buf2).tail.flatten
      ⟨(line ++ (splitOnNl buf2).headD []) :: rest.lines, rest.closed⟩
    else fileLoop rs buf2 (line ++ buf2)

/-- The read loop of `getLinesChannel` in
`experiments/go/httpgo/cmd/tcplistener/main.go`: identical to `fileLoop`
except that on a zero byte count it first sends the literal sentinel string
`"EOF"` and then closes the channel. -/
def listenerLoop : List ReadResult → List Byte → List Byte → ReaderOutput
  | [], _, _ => ⟨[], false⟩
  | r :: rs, buf, line =>
    let buf2 := updBuf buf r.data
    if r.data.isEmpty then ⟨[[69, 79, 70]], true⟩
    else if containsNl buf2 then
      let rest := listenerLoop rs buf2 (splitOnNl buf2).tail.flatten
      ⟨(line ++ (splitOnNl buf2).headD []) :: rest.lines, rest.closed⟩
    else listenerLoop rs buf2 (line ++ buf2)

/-- The read loop of `getLinesChannel` in the unnamed multi-connection
listener source (`part_000`, `\r\n` delimiter).  The loop returns when the
byte count is zero *or* the error is non-nil; before returning it sends the
pending `line` when it is non-empty, and it never closes the channel. -/
def tcpLoop : List ReadResult → List Byte → List Byte → ReaderOutput
  | [], _, _ => ⟨[], false⟩
  | r :: rs, buf, line =>
    let buf2 := updBuf buf r.data
    if r.data.isEmpty || r.err then ⟨if line.isEmpty then [] else [line], false⟩
    else if containsCrlf buf2 then
      let rest := tcpLoop rs buf2 (splitOnCrlf buf2).tail.flatten
      ⟨(line ++ (splitOnCrlf buf2).headD []) :: rest.lines, rest.closed⟩
    else tcpLoop rs buf2 (line ++ buf2)

/-- `var a = make([]byte, 8)`: the buffer starts as eight zero bytes. -/
def initialBuf : List Byte :=
  List.replicate 8 0

/-- `getLinesChannel` of `experiments/go/httpgo/main.go`, as the function from
the source's read results to the channel behaviour. -/
def getLinesChannelFile (reads : List ReadResult) : ReaderOutput :=
  fileLoop reads initialBuf []

/-- `getLinesChannel` of `experiments/go/httpgo/cmd/tcplistener/main.go`. -/
def getLinesChannelListener (reads : List ReadResult) : ReaderOutput :=
  listenerLoop reads initialBuf []

/-- `getLinesChannel` of the unnamed multi-connection listener (`part_000`). -/
def getLinesChannelTcp (reads : List ReadResult) : ReaderOutput :=
  tcpLoop reads initialBuf []

/-- A handler goroutine spawned by the accept loop of the multi-connection
listener: either a reader over a live connection (modelled by the read results
that connection will deliver), or a handler over the nil connection value that
`Accept` returns together with an error. -/
inductive ConnHandle where
  | reader (reads : List ReadResult)
  | nilConn
  deriving DecidableEq

/-- The accept loop of `main` in the unnamed multi-connection listener
(`part_000`): for every `Accept` result the loop logs the error when there is
one and then unconditionally spawns the handler goroutine over the returned
connection — including the nil connection of a failed accept, since the error
branch only logs and does not skip the iteration.  `none` models an `Accept`
call that returned a non-nil error (and hence a nil connection). -/
def acceptLoopSpawns (accepts : List (Option (List ReadResult))) : List ConnHandle :=
  accepts.map fun a =>
    match a with
    | some reads => ConnHandle.reader reads
    | none => ConnHandle.nilConn

end StreamReader

namespace StreamReader

theorem splitOnNl_ne_nil (l : List Byte) : splitOnNl l ≠ [] := by
  cases l with
  | nil => simp [splitOnNl]
  | cons b rest => by_cases hb : b = 10 <;> simp [splitOnNl, hb]

theorem not_mem_splitOnNl : ∀ (l : List Byte), ∀ p ∈ splitOnNl l, (10 : Byte) ∉ p := by
  intro l
  induction l with
  | nil =>
    intro p hp
    simp [splitOnNl] at hp
    simp [hp]
  | cons b rest ih =>
    intro p hp
    by_cases hb : b = 10
    · simp [splitOnNl, hb] at hp
      rcases hp with h | h
      · simp [h]
      · exact ih p h
    · simp [splitOnNl, hb] at hp
      rcases hp with h | h
      · subst h
        intro hmem
        rcases List.mem_cons.mp hmem with h10 | h10
        · exact hb h10.symm
        · rcases hs : splitOnNl rest with _ | ⟨p0, t0⟩
          · exact splitOnNl_ne_nil rest hs
          · rw [hs] at h10
            simp at h10
            exact ih p0 (by rw [hs]; exact List.mem_cons_self p0 t0) h10
      · exact ih p (List.tail_subset _ h)

theorem fileLoop_lines_no_nl : ∀ (rs : List ReadResult) (buf line : List Byte),
    (10 : Byte) ∉ line → ∀ rec ∈ (fileLoop rs buf line).lines, (10 : Byte) ∉ rec := by
  intro rs
  induction rs with
  | nil =>
    intro buf line hline rec hrec
    simp [fileLoop] at hrec
  | cons r rs ih =>
    intro buf line hline rec hrec
    by_cases hemp : r.data.isEmpty
    · simp [fileLoop, hemp] at hrec
    · by_cases hc : containsNl (updBuf buf r.data)
      · simp [fileLoop, hemp, hc] at hrec
        rcases hrec with h | h
        · subst h
          intro hmem
          rcases List.mem_append.mp hmem with h10 | h10
          · exact hline h10
          · rcases hs : splitOnNl (updBuf buf r.data) with _ | ⟨p0, t0⟩
            · exact splitOnNl_ne_nil _ hs
            · rw [hs] at h10
              simp at h10
              exact not_mem_splitOnNl _ p0 (by rw [hs]; exact List.mem_cons_self p0 t0) h10
        · refine ih _ _ ?_ rec h
          intro hmem
          rcases List.mem_flatten.mp hmem with ⟨l0, hl0, h10⟩
          exact not_mem_splitOnNl _ l0 (List.tail_subset _ hl0) h10
      · simp [fileLoop, hemp, hc] at hrec
        refine ih _ _ ?_ rec hrec
        intro hmem
        rcases List.mem_append.mp hmem with h10 | h10
        · exact hline h10
        · simp [containsNl] at hc
          exact hc h10

theorem listenerLoop_lines_no_nl : ∀ (rs : List ReadResult) (buf line : List Byte),
    (10 : Byte) ∉ line → ∀ rec ∈ (listenerLoop rs buf line).lines, (10 : Byte) ∉ rec := by
  intro rs
  induction rs with
  | nil =>
    intro buf line hline rec hrec
    simp [listenerLoop] at hrec
  | cons r rs ih =>
    intro buf line hline rec hrec
    by_cases hemp : r.data.isEmpty
    · simp [listenerLoop, hemp] at hrec
      simp [hrec]
    · by_cases hc : containsNl (updBuf buf r.data)
      · simp [listenerLoop, hemp, hc] at hrec
        rcases hrec with h | h
        · subst h
          intro hmem
          rcases List.mem_append.mp hmem with h10 | h10
          · exact hline h10
          · rcases hs : splitOnNl (updBuf buf r.data) with _ | ⟨p0, t0⟩
            · exact splitOnNl_ne_nil _ hs
            · rw [hs] at h10
              simp at h10
              exact not_mem_splitOnNl _ p0 (by rw [hs]; exact List.mem_cons_self p0 t0) h10
        · refine ih _ _ ?_ rec h
          intro hmem
          rcases List.mem_flatten.mp hmem with ⟨l0, hl0, h10⟩
          exact not_mem_splitOnNl _ l0 (List.tail_subset _ hl0) h10
      · simp [listenerLoop, hemp, hc] at hrec
        refine ih _ _ ?_ rec hrec
        intro hmem
        rcases List.mem_append.mp hmem with h10 | h10
        · exact hline h10
        · simp [containsNl] at hc
          exact hc h10

/-- A run of the goroutine of `getLinesChannel`
(`experiments/go/httpgo/main.go`), as a relation between the read results the
source will deliver, the current buffer and pending line, and the resulting
channel behaviour.  Each constructor mirrors one branch of the loop body. -/
inductive FileEmits : List ReadResult → List Byte → List Byte → ReaderOutput → Prop where
  | blocked : ∀ buf line, FileEmits [] buf line ⟨[], false⟩
  | eof : ∀ r rs buf line, r.data = [] → FileEmits (r :: rs) buf line ⟨[], true⟩
  | emit : ∀ r rs buf line o, r.data ≠ [] →
      containsNl (updBuf buf r.data) = true →
      FileEmits rs (updBuf buf r.data) ((splitOnNl (updBuf buf r.data)).tail.flatten) o →
      FileEmits (r :: rs) buf line
        ⟨(line ++ (splitOnNl (updBuf buf r.data)).headD []) :: o.lines, o.closed⟩
  | grow : ∀ r rs buf line o, r.data ≠ [] →
      containsNl (updBuf buf r.data) = false →
      FileEmits rs (updBuf buf r.data) (line ++ updBuf buf r.data) o →
      FileEmits (r :: rs) buf line o

theorem fileEmits_eq_run : ∀ {rs : List ReadResult} {buf line : List Byte} {o : ReaderOutput},
    FileEmits rs buf line o → o = fileLoop rs buf line := by
  intro rs buf line o h
  induction h with
  | blocked buf line => simp [fileLoop]
  | eof r rs buf line hd => simp [fileLoop, List.isEmpty_iff, hd]
  | emit r rs buf line o hd hc h ih => simp [fileLoop, List.isEmpty_iff, hd, hc, ih]
  | grow r rs buf line o hd hc h ih => simpa [fileLoop, List.isEmpty_iff, hd, hc] using ih

theorem fileEmits_run : ∀ (rs : List ReadResult) (buf line : List Byte),
    FileEmits rs buf line (fileLoop rs buf line) := by
  intro rs
  induction rs with
  | nil =>
    intro buf line
    simpa [fileLoop] using FileEmits.blocked buf line
  | cons r rs ih =>
    intro buf line
    by_cases hd : r.data = []
    · have he : fileLoop (r :: rs) buf line = ⟨[], true⟩ := by
        simp [fileLoop, List.isEmpty_iff, hd]
      rw [he]
      exact FileEmits.eof r rs buf line hd
    · by_cases hc : containsNl (updBuf buf r.data) = true
      · have he : fileLoop (r :: rs) buf line =
            ⟨(line ++ (splitOnNl (updBuf buf r.data)).headD []) ::
              (fileLoop rs (updBuf buf r.data)
                ((splitOnNl (updBuf buf r.data)).tail.flatten)).lines,
             (fileLoop rs (updBuf buf r.data)
                ((splitOnNl (updBuf buf r.data)).tail.flatten)).closed⟩ := by
          simp [fileLoop, List.isEmpty_iff, hd, hc]
        rw [he]
        exact FileEmits.emit r rs buf line _ hd hc (ih _ _)
      · have hc2 : containsNl (updBuf buf r.data) = false := by
          cases hcc : containsNl (updBuf buf r.data) <;> simp_all
        have he : fileLoop (r :: rs) buf line =
            fileLoop rs (updBuf buf r.data) (line ++ updBuf buf r.data) := by
          simp [fileLoop, List.isEmpty_iff, hd, hc2]
        rw [he]
        exact FileEmits.grow r rs buf line _ hd hc2 (ih _ _)

end StreamReader

namespace StreamReader

/-- Claim C1: the claim states that the emitted record sequence is the same
for every chunking of a fixed input.  It is false of the code: the input
bytes `"a\n"` delivered as one 2-byte read produce the single record `"a"`,
while the same bytes delivered as two 1-byte reads produce the record
`"a\x00\x00\x00\x00\x00\x00\x00"`, because the code converts the whole 8-byte
buffer regardless of how many bytes the read returned, so a partial read
appends the stale remainder of the buffer to the line. -/
theorem file_reader_chunking_dependent :
    getLinesChannelFile [⟨[97, 10], false⟩, ⟨[], false⟩] ≠
      getLinesChannelFile [⟨[97], false⟩, ⟨[10], false⟩, ⟨[], false⟩] := by
  decide

/-- Claim C2: the claim states that a non-end-of-stream read error terminates
the sequence and is surfaced to the consumer.  It is false of the code: a read
that returns eight bytes together with a non-nil error is only logged — the
loop keeps reading, emits a record on a later iteration, and finally closes
the channel normally, so the consumer never learns of the error. -/
theorem file_reader_swallows_read_error :
    getLinesChannelFile
        [⟨[97, 97, 97, 97, 97, 97, 97, 97], true⟩,
         ⟨[10, 98, 98, 98, 98, 98, 98, 98], false⟩,
         ⟨[], false⟩] =
      ⟨[[97, 97, 97, 97, 97, 97, 97, 97]], true⟩ := by
  decide

/-- Claim C3: the claim states that concatenating the emitted records with one
delimiter re-inserted after each delimiter-terminated record reconstructs the
bytes read from the source.  It is false of the code: the source delivers the
bytes `"a"` then `"\n"`, but the single delimiter-terminated record emitted is
`"a\x00\x00\x00\x00\x00\x00\x00"`, so the reconstruction contains seven zero
bytes the source never delivered. -/
theorem file_reader_duplicates_stale_bytes :
    (getLinesChannelFile [⟨[97], false⟩, ⟨[10], false⟩, ⟨[], false⟩]).lines =
        [[97, 0, 0, 0, 0, 0, 0, 0]] ∧
      [97, 0, 0, 0, 0, 0, 0, 0] ++ [10] ≠ [97] ++ ([10] : List Byte) := by
  decide

/-- Claim C4: the claim states that a chunk containing several delimiters
yields one emitted record per delimiter.  It is false of the code: a single
8-byte chunk containing two newlines (`"a\nb\ncccc"`) yields exactly one
record, `"a"` — the code splits the chunk once, emits only the first segment,
and joins the remaining segments back into the accumulator with the empty
string, silently dropping the second delimiter. -/
theorem file_reader_emits_once_per_chunk :
    (getLinesChannelFile [⟨[97, 10, 98, 10, 99, 99, 99, 99], false⟩, ⟨[], false⟩]).lines =
      [[97]] := by
  decide

/-- Claim C5: the claim states that residual accumulator bytes are emitted as
a final record at end-of-stream.  It is false of the file variant: after a
full 8-byte chunk with no delimiter, end-of-stream closes the channel at once
and the eight accumulated bytes are discarded.  The multi-connection variant
(`part_000`) does flush the same residual bytes as a final record. -/
theorem file_reader_drops_trailing_line :
    (getLinesChannelFile
        [⟨[97, 98, 99, 100, 101, 102, 103, 104], false⟩, ⟨[], false⟩]).lines = [] ∧
      (getLinesChannelTcp
        [⟨[97, 98, 99, 100, 101, 102, 103, 104], false⟩, ⟨[], false⟩]).lines =
        [[97, 98, 99, 100, 101, 102, 103, 104]] := by
  decide

/-- Claim C6: the claim states that once the source signals end-of-stream the
output channel is closed so the consumer's iteration terminates.  It is false
of the multi-connection variant (`part_000`): its goroutine returns without
ever calling `close(strChan)`, so after an immediate end-of-stream the channel
stays open and a consumer ranging over it blocks forever.  The file variant
does close its channel on the same input. -/
theorem tcp_reader_never_closes_channel :
    getLinesChannelTcp [⟨[], false⟩] = ⟨[], false⟩ ∧
      getLinesChannelFile [⟨[], false⟩] = ⟨[], true⟩ := by
  decide

/-- Claim C7: the claim states that an accept error is logged and the loop
merely continues to the next iteration without crashing the process.  It is
false of the code: the error branch only logs and does not skip the
iteration, so the loop goes on to spawn a handler goroutine over the nil
connection returned by the failed accept (calling `Read`/`Close` on a nil
connection panics and brings the whole process down), before accepting the
next connection. -/
theorem accept_loop_spawns_on_nil_connection :
    acceptLoopSpawns [none, some [⟨[], false⟩]] =
      [ConnHandle.nilConn, ConnHandle.reader [⟨[], false⟩]] := by
  decide

/-- Claim C9: the Stream Reader is deterministic — any two runs of the
goroutine of `getLinesChannel` over the same sequence of read results produce
the same channel behaviour (same records in the same order, same closing). -/
theorem getLinesChannel_deterministic (reads : List ReadResult) (o1 o2 : ReaderOutput)
    (h1 : FileEmits reads initialBuf [] o1) (h2 : FileEmits reads initialBuf [] o2) :
    o1 = o2 :=
  (fileEmits_eq_run h1).trans (fileEmits_eq_run h2).symm

theorem getLinesChannel_deterministic_witness : (⟨[], true⟩ : ReaderOutput) = ⟨[], true⟩ :=
  getLinesChannel_deterministic [⟨[], false⟩] ⟨[], true⟩ ⟨[], true⟩
    (FileEmits.eof ⟨[], false⟩ [] initialBuf [] rfl)
    (FileEmits.eof ⟨[], false⟩ [] initialBuf [] rfl)

/-- Claim C10: in the newline-delimited variants every record emitted on the
channel contains no newline byte: the accumulator starts empty and is only
ever extended with delimiter-free segments (a whole buffer that was checked to
contain no newline, or segments produced by splitting on the newline), and
each emitted record is the accumulator plus such a segment. -/
theorem emitted_record_has_no_delimiter (reads : List ReadResult) (rec : List Byte)
    (h : rec ∈ (getLinesChannelFile reads).lines ∨
      rec ∈ (getLinesChannelListener reads).lines) :
    (10 : Byte) ∉ rec := by
  rcases h with h | h
  · exact fileLoop_lines_no_nl reads initialBuf [] (by simp) rec h
  · exact listenerLoop_lines_no_nl reads initialBuf [] (by simp) rec h

theorem emitted_record_has_no_delimiter_witness : (10 : Byte) ∉ ([97] : List Byte) :=
  emitted_record_has_no_delimiter [⟨[97, 10], false⟩, ⟨[], false⟩] [97]
    (Or.inl (by decide))

end StreamReader
